import Mathlib

/-!
Verification of the StatEdge season backfill and validation pipeline.

This file gives a shallow embedding of the pipeline scripts
(`python-service/services/data_collector.py`,
`python-service/complete_season_backfill.py`,
`python-service/validate_complete_coverage.py`,
`python-service/emergency_backfill.py`) and proves or refutes the
specification claims about them.  Calendar dates iterated day by day are
modelled as natural-number day ordinals; parsed calendar dates carry an
explicit year/month/day structure.  Python floats are modelled as rationals.
-/

namespace StatEdge

/-- A calendar date as year/month/day, the result of the shared date parser
(`_convert_to_date`). -/
structure CalDate where
  year : Nat
  month : Nat
  day : Nat
deriving DecidableEq, Repr

/-- Gregorian leap-year rule, as validated by Python's `datetime` constructor
inside `datetime.strptime` / `datetime.fromisoformat`. -/
def isLeapYear (y : Nat) : Bool :=
  (y % 4 == 0 && y % 100 != 0) || y % 400 == 0

/-- Number of days in a month, as validated by Python's `datetime`
constructor. -/
def daysInMonth (y m : Nat) : Nat :=
  if m = 2 then (if isLeapYear y then 29 else 28)
  else if m = 4 ∨ m = 6 ∨ m = 9 ∨ m = 11 then 30
  else 31

/-- Splitting a character list at every occurrence of a separator character
(the character-level counterpart of Python's `str.split`). -/
def splitOnChar (c : Char) : List Char → List (List Char)
  | [] => [[]]
  | x :: xs =>
    let r := splitOnChar c xs
    if x = c then [] :: r
    else
      match r with
      | [] => [[x]]
      | h :: t => (x :: h) :: t

/-- Decimal value of a nonempty all-digit character list, `none` otherwise
(the accepting behaviour of a `%Y`/`%m`/`%d` field of `strptime`). -/
def digitsVal (l : List Char) : Option Nat :=
  if l ≠ [] ∧ l.all Char.isDigit then
    some (l.foldl (fun n c => n * 10 + (c.toNat - 48)) 0)
  else none

/-- Model of `datetime.strptime(date_value, %Y-%m-%d).date()` as used in
`_convert_to_date`: three dash-separated decimal components forming a valid
calendar date (Python years run 1..9999); any other input raises
`ValueError`, modelled as `none`. -/
def parseSimpleDate (s : String) : Option CalDate :=
  match splitOnChar '-' s.data with
  | [ys, ms, ds] =>
    match digitsVal ys, digitsVal ms, digitsVal ds with
    | some y, some m, some d =>
      if 1 ≤ y ∧ y ≤ 9999 ∧ 1 ≤ m ∧ m ≤ 12 ∧ 1 ≤ d ∧ d ≤ daysInMonth y m then
        some ⟨y, m, d⟩
      else none
    | _, _, _ => none
  | _ => none

/-- Model of `date_value.replace(Z, +00:00)` as applied before
`fromisoformat`: every `Z` character is replaced by an explicit UTC offset. -/
def replaceZ (l : List Char) : List Char :=
  l.foldr
    (fun c acc =>
      if c = 'Z' then '+' :: '0' :: '0' :: ':' :: '0' :: '0' :: acc else c :: acc)
    []

/-- Model of `datetime.fromisoformat(..).date()` on a string containing `T`,
as used in `_convert_to_date`: the date part before `T` must be a valid
calendar date; the time component is checked only coarsely (no claim in this
development exercises the time component). -/
def parseIsoWithTime (l : List Char) : Option CalDate :=
  match splitOnChar 'T' l with
  | [dpart, tpart] =>
    if tpart.length ≥ 2 && tpart.all (fun c => c.isDigit || c = ':' || c = '+' || c = '.' || c = '-') then
      parseSimpleDate (String.mk dpart)
    else none
  | _ => none

/-- The possible runtime shapes of a date/time field reaching
`_convert_to_date`: Python `None`, a `date`, a `datetime`, a string, a
pandas `Timestamp` (anything with a `.date()` attribute), or some other
object. -/
inductive DateInput where
  | null : DateInput
  | dateV : CalDate → DateInput
  | datetimeV : CalDate → DateInput
  | strV : String → DateInput
  | tsV : CalDate → DateInput
  | other : DateInput
deriving DecidableEq, Repr

/-- Embedding of `DataCollector._convert_to_date` (data_collector.py lines
20-51): `None` stays `None`; `date`/`datetime`/`Timestamp` values yield their
calendar date; strings go through `fromisoformat` when they contain `T`
(after replacing `Z` with an explicit offset) and through
`strptime(%Y-%m-%d)` otherwise; a parse failure is logged as a warning and
`None` is returned (no exception propagates). -/
def convertToDate : DateInput → Option CalDate
  | .null => none
  | .dateV d => some d
  | .datetimeV d => some d
  | .strV s =>
    if s.data.contains 'T' then parseIsoWithTime (replaceZ s.data)
    else parseSimpleDate s
  | .tsV d => some d
  | .other => none

/-- One raw upstream Statcast record after the NaN/timestamp cleanup loop of
`store_statcast_data`: the fields the code extracts for indexing, plus the
date field in its original heterogeneous shape, plus the rest of the record
as an opaque payload.  A field that is absent or was NaN is `none`. -/
structure RawRecord where
  gamePk : Option Nat
  playId : Option Nat
  pitchNumber : Option Nat
  atBatNumber : Option Nat
  inning : Option Nat
  gameDate : DateInput
  batter : Option Nat
  pitcher : Option Nat
  payload : String
deriving DecidableEq, Repr

/-- Python's `x or 0` applied to an optional numeric field: `None` and `0`
both collapse to `0`. -/
def orZero : Option Nat → Nat
  | none => 0
  | some n => n

/-- Python f-string interpolation of an optional value (`f"{game_pk}"`):
`None` prints as the text `None`. -/
def keyStr : Option Nat → String
  | none => "None"
  | some n => toString n

/-- Embedding of the natural-key construction of `store_statcast_data`
(data_collector.py lines 136-142) and `store_statcast_batch`
(emergency_backfill.py lines 114-120):
`pitch_id = f"{game_pk}_{play_id}_{pitch_number}_{at_bat_number}_{inning}"`
with each component defaulted to 0 by `or 0`. -/
def pitchId (r : RawRecord) : String :=
  keyStr r.gamePk ++ "_" ++ toString (orZero r.playId) ++ "_" ++
    toString (orZero r.pitchNumber) ++ "_" ++ toString (orZero r.atBatNumber) ++ "_" ++
    toString (orZero r.inning)

/-- One stored row of the `statcast_pitches` table, restricted to the columns
the claims are about. -/
structure StoredRow where
  gamePk : Option Nat
  gameDate : Option CalDate
  batterId : Option Nat
  pitcherId : Option Nat
  statcastData : RawRecord
deriving DecidableEq, Repr

/-- The row built for one record by `store_statcast_data` (lines 144-153 and
the INSERT parameter list): the date field goes through `_convert_to_date`
(the code's explicit `None` guard coincides with the parser's `None` case),
and the full record is kept as the opaque `statcast_data` payload. -/
def rowOf (r : RawRecord) : StoredRow :=
  { gamePk := r.gamePk
    gameDate := convertToDate r.gameDate
    batterId := r.batter
    pitcherId := r.pitcher
    statcastData := r }

/-- The store: the `statcast_pitches` table as an association list keyed by
`pitch_id` (the table's unique index, implied by `ON CONFLICT (pitch_id)`). -/
abbrev Store : Type := List (String × StoredRow)

/-- Whether the store already holds a row with the given natural key. -/
def hasKey (s : Store) (k : String) : Bool :=
  s.any (fun p => p.1 = k)

/-- The conflict action of the upsert: on the row whose key matches, replace
`statcast_data` with the incoming payload (plus a timestamp, not modelled);
other rows are untouched. -/
def updEntry (k : String) (row : StoredRow) (p : String × StoredRow) : String × StoredRow :=
  if p.1 = k then (p.1, { p.2 with statcastData := row.statcastData }) else p

/-- Embedding of the INSERT .. ON CONFLICT (pitch_id) DO UPDATE statement
(data_collector.py lines 156-168): a key conflict updates the existing row's
`statcast_data` in place; otherwise the row is inserted. -/
def upsertRow (s : Store) (k : String) (row : StoredRow) : Store :=
  if hasKey s k then s.map (updEntry k row) else s ++ [(k, row)]

/-- The observable outcome of one `store_statcast_data` call: the committed
store, the `records_processed` and `records_inserted` counters, and the list
of per-record failure warnings (`Failed to insert record ...`). -/
structure BatchResult where
  store : Store
  processed : Nat
  inserted : Nat
  failLog : List String
deriving DecidableEq, Repr

/-- One warning line of the per-record `except` handler
(data_collector.py lines 191-193). -/
def failMsg (r : RawRecord) : String :=
  "Failed to insert record " ++ pitchId r

/-- Embedding of the record loop of `store_statcast_data`
(data_collector.py lines 120-196): each record is normalized and upserted;
a failing insert (`insertFails`, abstracting database-side errors caught by
the per-record `except`) is logged and skipped without aborting the batch;
the final store is the state at `session.commit()`. -/
def storeStatcastData (insertFails : RawRecord → Bool) (s : Store) :
    List RawRecord → BatchResult
  | [] => { store := s, processed := 0, inserted := 0, failLog := [] }
  | r :: rest =>
    if insertFails r then
      let b := storeStatcastData insertFails s rest
      { store := b.store, processed := b.processed + 1, inserted := b.inserted,
        failLog := failMsg r :: b.failLog }
    else
      let b := storeStatcastData insertFails (upsertRow s (pitchId r) (rowOf r)) rest
      { store := b.store, processed := b.processed + 1, inserted := b.inserted + 1,
        failLog := b.failLog }

/-- The store's count query for one date:
`SELECT COUNT(*) FROM statcast_pitches WHERE game_date = :target_date`
(a row whose `game_date` is NULL matches no date). -/
def countByDate (s : Store) (d : CalDate) : Nat :=
  (s.filter (fun p => p.2.gameDate = some d)).length

/-- The per-subject status labels produced by the validation scripts. -/
inductive VStatus where
  | complete : VStatus
  | incomplete : VStatus
  | missing : VStatus
  | noGames : VStatus
  | error : VStatus
deriving DecidableEq, Repr

/-- The completeness expression shared by `validate_sample_dates` (line 134)
and `validate_date_collection` (line 177):
`(actual_records / expected_records * 100) if expected_records > 0 else 0`. -/
def dateCompleteness (expected actual : Nat) : ℚ :=
  if 0 < expected then (actual : ℚ) / (expected : ℚ) * 100 else 0

/-- Embedding of the per-date classification of `validate_sample_dates`
(validate_complete_coverage.py lines 106-149) and `validate_date_collection`
(complete_season_backfill.py lines 144-195): an empty upstream result (zero
expected records) short-circuits to status `no_games` with completeness
100.0; otherwise the completeness ratio is classified against the 99.5
threshold.  Returns (status, completeness). -/
def validateDate (expected actual : Nat) : VStatus × ℚ :=
  if expected = 0 then (.noGames, 100)
  else
    let c := dateCompleteness expected actual
    (if c ≥ 99.5 then .complete else if c > 0 then .incomplete else .missing, c)

/-- The completeness expression of `validate_key_players`
(validate_complete_coverage.py line 226):
`(actual_records / expected_records * 100) if expected_records > 0 else 0`.
Unlike the date path, there is no short-circuit for an empty expected set:
a player with zero expected records reaches this expression directly. -/
def playerCompleteness (expected actual : Nat) : ℚ :=
  if 0 < expected then (actual : ℚ) / (expected : ℚ) * 100 else 0

/-- The per-player classification of `validate_key_players` (line 238):
`complete` at the relaxed 95.0 threshold, else `incomplete` when positive,
else `missing`. -/
def playerStatus (expected actual : Nat) : VStatus :=
  let c := playerCompleteness expected actual
  if c ≥ 95.0 then .complete else if c > 0 then .incomplete else .missing

/-- Overall status of a validation run. -/
inductive RunStatus where
  | COMPLETE : RunStatus
  | INCOMPLETE : RunStatus
deriving DecidableEq, Repr

/-- Embedding of the summary computation of `run_complete_validation`
(validate_complete_coverage.py lines 289-295):
`overall = min(sample_completeness, player_completeness)` and
`validation_status = COMPLETE if overall >= 95.0 else INCOMPLETE`. -/
def validationStatus (sampleCompleteness playerCompleteness : ℚ) : RunStatus :=
  if min sampleCompleteness playerCompleteness ≥ 95.0 then .COMPLETE else .INCOMPLETE

/-- Embedding of the `__main__` block of validate_complete_coverage.py
(lines 345-351): `main()` returns whether the report status is COMPLETE,
one of two messages is printed, and control falls off the end of the script
without any `sys.exit` call, so the interpreter's exit status is 0 on every
run that completes (an uncaught exception would instead abort with a
traceback).  Returns (exit status, printed lines). -/
def validateMainExit (status : RunStatus) : Nat × List String :=
  let success := status = RunStatus.COMPLETE
  if success then
    (0, ["VALIDATION PASSED - ALL DATA IS COMPLETE!"])
  else
    (0, ["VALIDATION FAILED - DATA GAPS DETECTED",
         "Run the backfill script to collect missing data."])

/-- The season-end cap of `ComprehensiveSeasonCollector.__init__`
(complete_season_backfill.py lines 49-52):
`if season_end > today: season_end = today`.  Dates are day ordinals. -/
def cappedEnd (seasonEnd today : Nat) : Nat :=
  if seasonEnd > today then today else seasonEnd

/-- Embedding of the work-list loop of `run_comprehensive_backfill`
(complete_season_backfill.py lines 264-272): walk day by day from
`season_start` to the capped `season_end` inclusive, keeping every date not
in the checkpoint's `completed_dates` (the `failed_dates` list is not
consulted). -/
def allDates (seasonStart seasonEnd today : Nat) (completed : List Nat) : List Nat :=
  (List.range' seasonStart (cappedEnd seasonEnd today + 1 - seasonStart)).filter
    (fun d => decide (d ∉ completed))

/-- The retry policy constant `max_retries` of `collect_single_date`
(complete_season_backfill.py line 212). -/
def maxRetries : Nat := 3

/-- Embedding of `collect_single_date` (complete_season_backfill.py lines
209-248).  One attempt at retry count `rc` (collector call plus validation,
or the exception path) either succeeds (`attemptSucceeds rc`, covering the
`complete` and `no_games` outcomes) or fails; a failed attempt recurses with
`rc + 1` while `rc < max_retries` and otherwise returns failure. -/
def collectSingleDate (attemptSucceeds : Nat → Bool) (rc : Nat) : Bool :=
  if attemptSucceeds rc then true
  else if rc < maxRetries then collectSingleDate attemptSucceeds (rc + 1)
  else false
termination_by maxRetries + 1 - rc
decreasing_by omega

/-- The number of attempts (initial call plus retries) that
`collect_single_date` performs, starting from retry count `rc`. -/
def collectAttempts (attemptSucceeds : Nat → Bool) (rc : Nat) : Nat :=
  if attemptSucceeds rc then 1
  else if rc < maxRetries then 1 + collectAttempts attemptSucceeds (rc + 1)
  else 1
termination_by maxRetries + 1 - rc
decreasing_by omega

/-- The in-run checkpoint state of the backfill scripts: the
`completed_dates` and `failed_dates` lists of the progress dictionary. -/
structure Progress where
  completed : List Nat
  failed : List Nat
deriving DecidableEq, Repr

/-- Embedding of the per-date checkpoint update of
`run_comprehensive_backfill` (complete_season_backfill.py lines 284-294):
on success the date is appended to `completed_dates` and removed from
`failed_dates` if present; on failure it is appended to `failed_dates`
unless already there. -/
def stepDate (p : Progress) (d : Nat) (success : Bool) : Progress :=
  if success then
    { completed := p.completed ++ [d]
      failed := if d ∈ p.failed then p.failed.erase d else p.failed }
  else
    { completed := p.completed
      failed := if d ∈ p.failed then p.failed else p.failed ++ [d] }

/-- The main date loop of `run_comprehensive_backfill` (lines 279-294),
restricted to its checkpoint effect: each scheduled date is collected
(`res d` is the boolean result of `collect_single_date`) and the progress
state receives that date's terminal transition. -/
def processDates (ds : List Nat) (res : Nat → Bool) (p : Progress) : Progress :=
  ds.foldl (fun q d => stepDate q d (res d)) p

/-- Embedding of `save_progress` (complete_season_backfill.py lines 73-77 and
emergency_backfill.py lines 237-241): the checkpoint file is opened with
mode `w`, which truncates it in place, and the serialized state is then
written out.  The list enumerates the file contents observable at each
interruption point: the empty file right after the truncating open, every
partial write, and finally the complete serialized state. -/
def saveProgressStates (serialized : String) : List String :=
  (List.range (serialized.data.length + 1)).map (fun k => String.mk (serialized.data.take k))

lemma hasKey_iff_exists (s : Store) (k : String) :
    hasKey s k = true ↔ ∃ p ∈ s, p.1 = k := by
  simp [hasKey, List.any_eq_true]

lemma hasKey_append_one (s : Store) (k0 : String) (row : StoredRow) (k : String) :
    hasKey (s ++ [(k0, row)]) k = (hasKey s k || decide (k0 = k)) := by
  simp [hasKey, List.any_append]

lemma updEntry_fst (k : String) (row : StoredRow) (p : String × StoredRow) :
    (updEntry k row p).1 = p.1 := by
  unfold updEntry; split <;> rfl

lemma updEntry_gameDate (k : String) (row : StoredRow) (p : String × StoredRow) :
    (updEntry k row p).2.gameDate = p.2.gameDate := by
  unfold updEntry; split <;> rfl

lemma hasKey_map_updEntry (s : Store) (k : String) (row : StoredRow) (k' : String) :
    hasKey (s.map (updEntry k row)) k' = hasKey s k' := by
  induction s with
  | nil => rfl
  | cons p t ih =>
    simp only [List.map_cons, hasKey, List.any_cons] at ih ⊢
    rw [updEntry_fst, ih]

lemma countByDate_map_updEntry (s : Store) (k : String) (row : StoredRow) (d : CalDate) :
    countByDate (s.map (updEntry k row)) d = countByDate s d := by
  induction s with
  | nil => rfl
  | cons p t ih =>
    simp only [List.map_cons, countByDate, List.filter_cons, updEntry_gameDate] at ih ⊢
    by_cases hd : p.2.gameDate = some d <;> simp [hd, ih]

lemma hasKey_upsertRow_of_hasKey (s : Store) (k k' : String) (row : StoredRow)
    (h : hasKey s k' = true) : hasKey (upsertRow s k row) k' = true := by
  unfold upsertRow
  by_cases hk : hasKey s k
  · simp [hk, hasKey_map_updEntry, h]
  · rw [if_neg hk, hasKey_append_one, h, Bool.true_or]

lemma hasKey_upsertRow_self (s : Store) (k : String) (row : StoredRow) :
    hasKey (upsertRow s k row) k = true := by
  unfold upsertRow
  by_cases hk : hasKey s k
  · rw [if_pos hk, hasKey_map_updEntry]; exact hk
  · rw [if_neg hk, hasKey_append_one]; simp

lemma length_upsertRow_of_hasKey (s : Store) (k : String) (row : StoredRow)
    (h : hasKey s k = true) : (upsertRow s k row).length = s.length := by
  simp [upsertRow, h]

lemma countByDate_upsertRow_of_hasKey (s : Store) (k : String) (row : StoredRow)
    (d : CalDate) (h : hasKey s k = true) :
    countByDate (upsertRow s k row) d = countByDate s d := by
  simp [upsertRow, h, countByDate_map_updEntry]

lemma countByDate_append_one (s : Store) (k : String) (row : StoredRow) (d : CalDate) :
    countByDate (s ++ [(k, row)]) d =
      countByDate s d + (if row.gameDate = some d then 1 else 0) := by
  by_cases hd : row.gameDate = some d <;> simp [countByDate, List.filter_append, hd]

lemma countByDate_upsertRow_fresh (s : Store) (k : String) (row : StoredRow)
    (d : CalDate) (h : hasKey s k = false) :
    countByDate (upsertRow s k row) d =
      countByDate s d + (if row.gameDate = some d then 1 else 0) := by
  simp [upsertRow, h, countByDate_append_one]

lemma hasKey_storeStatcastData_of (f : RawRecord → Bool) (df : List RawRecord) :
    ∀ (s : Store) (k : String), hasKey s k = true →
      hasKey (storeStatcastData f s df).store k = true := by
  induction df with
  | nil => intro s k h; simpa [storeStatcastData] using h
  | cons r rest ih =>
    intro s k h
    by_cases hf : f r
    · simpa [storeStatcastData, hf] using ih s k h
    · simpa [storeStatcastData, hf] using
        ih _ k (hasKey_upsertRow_of_hasKey s (pitchId r) k (rowOf r) h)

lemma hasKey_storeStatcastData_mem (f : RawRecord → Bool) (df : List RawRecord) :
    ∀ (s : Store) (r : RawRecord), r ∈ df → f r = false →
      hasKey (storeStatcastData f s df).store (pitchId r) = true := by
  induction df with
  | nil => intro s r h; simp at h
  | cons r0 rest ih =>
    intro s r hr hf
    rcases List.mem_cons.mp hr with h0 | h0
    · subst h0
      have hf0 : f r = false := hf
      simp only [storeStatcastData, hf0, Bool.false_eq_true, if_false]
      exact hasKey_storeStatcastData_of f rest _ _ (hasKey_upsertRow_self s _ _)
    · by_cases hf0 : f r0
      · simpa [storeStatcastData, hf0] using ih s r h0 hf
      · simpa [storeStatcastData, hf0] using ih _ r h0 hf

lemma storeStatcastData_present_noop (f : RawRecord → Bool) (df : List RawRecord)
    (d : CalDate) :
    ∀ s : Store, (∀ r ∈ df, f r = false → hasKey s (pitchId r) = true) →
      countByDate (storeStatcastData f s df).store d = countByDate s d ∧
        (storeStatcastData f s df).store.length = s.length := by
  induction df with
  | nil => intro s _; simp [storeStatcastData]
  | cons r rest ih =>
    intro s h
    by_cases hf : f r
    · simpa [storeStatcastData, hf] using
        ih s (fun r' hr' => h r' (List.mem_cons_of_mem _ hr'))
    · have hk : hasKey s (pitchId r) = true :=
        h r (List.mem_cons_self _ _) (by simpa using hf)
      have hrest := ih (upsertRow s (pitchId r) (rowOf r))
        (fun r' hr' hf' =>
          hasKey_upsertRow_of_hasKey s _ _ _ (h r' (List.mem_cons_of_mem _ hr') hf'))
      simp only [storeStatcastData, hf, Bool.false_eq_true, if_false]
      exact ⟨by rw [hrest.1, countByDate_upsertRow_of_hasKey s _ _ d hk],
        by rw [hrest.2, length_upsertRow_of_hasKey s _ _ hk]⟩

lemma storeStatcastData_counters (f : RawRecord → Bool) (df : List RawRecord) :
    ∀ s : Store,
      (storeStatcastData f s df).processed = df.length ∧
      (storeStatcastData f s df).inserted = df.countP (fun r => !(f r)) ∧
      (storeStatcastData f s df).failLog.length = df.countP f := by
  induction df with
  | nil => intro s; simp [storeStatcastData]
  | cons r rest ih =>
    intro s
    by_cases hf : f r <;>
      simp [storeStatcastData, hf, List.countP_cons, (ih _).1, (ih _).2.1, (ih _).2.2]

lemma countByDate_storeStatcastData_fresh (f : RawRecord → Bool) (d : CalDate) :
    ∀ (df : List RawRecord) (s : Store),
      (∀ r ∈ df, f r = false → hasKey s (pitchId r) = false) →
      ((df.filter (fun r => !(f r))).map pitchId).Nodup →
      countByDate (storeStatcastData f s df).store d =
        countByDate s d +
          df.countP (fun r => !(f r) && decide ((rowOf r).gameDate = some d)) := by
  intro df
  induction df with
  | nil => intro s _ _; simp [storeStatcastData]
  | cons r rest ih =>
    intro s hfresh hnd
    by_cases hf : f r
    · have := ih s (fun r' hr' => hfresh r' (List.mem_cons_of_mem _ hr'))
        (by simpa [List.filter_cons, hf] using hnd)
      simp [storeStatcastData, hf, List.countP_cons, this]
    · have hfr : f r = false := by simpa using hf
      have hk : hasKey s (pitchId r) = false := hfresh r (List.mem_cons_self _ _) hfr
      have hnd' : ((rest.filter (fun r => !(f r))).map pitchId).Nodup ∧
          pitchId r ∉ (rest.filter (fun r => !(f r))).map pitchId := by
        rw [List.filter_cons] at hnd
        simp only [hfr, Bool.not_false, if_true, List.map_cons, List.nodup_cons] at hnd
        exact ⟨hnd.2, hnd.1⟩
      have hfresh' : ∀ r' ∈ rest, f r' = false →
          hasKey (upsertRow s (pitchId r) (rowOf r)) (pitchId r') = false := by
        intro r' hr' hf'
        have h1 : hasKey s (pitchId r') = false :=
          hfresh r' (List.mem_cons_of_mem _ hr') hf'
        have h2 : pitchId r ≠ pitchId r' := by
          intro he
          exact hnd'.2 (he ▸ List.mem_map_of_mem _ (List.mem_filter.mpr
            ⟨hr', by simp [hf']⟩))
        simp [upsertRow, hk, hasKey_append_one, h1, h2]
      have := ih (upsertRow s (pitchId r) (rowOf r)) hfresh' hnd'.1
      simp only [storeStatcastData, hfr, Bool.false_eq_true, if_false, this,
        countByDate_upsertRow_fresh s _ _ d hk, List.countP_cons, hfr, Bool.not_false,
        Bool.true_and]
      by_cases hd : (rowOf r).gameDate = some d
      · simp [hd]
        omega
      · simp [hd]

lemma mem_allDates (s e t : Nat) (completed : List Nat) (d : Nat) :
    d ∈ allDates s e t completed ↔ s ≤ d ∧ d ≤ cappedEnd e t ∧ d ∉ completed := by
  simp only [allDates, List.mem_filter, List.mem_range'_1, decide_eq_true_eq]
  constructor
  · rintro ⟨⟨h1, h2⟩, h3⟩
    exact ⟨h1, by omega, h3⟩
  · rintro ⟨h1, h2, h3⟩
    exact ⟨⟨h1, by omega⟩, h3⟩

lemma sorted_allDates (s e t : Nat) (completed : List Nat) :
    List.Sorted (· < ·) (allDates s e t completed) := by
  exact List.Pairwise.filter _ (List.pairwise_lt_range' s _)

lemma nodup_allDates (s e t : Nat) (completed : List Nat) :
    (allDates s e t completed).Nodup := by
  exact List.Nodup.filter _ (List.nodup_range' s _)

lemma collectAttempts_le (g : Nat → Bool) (rc : Nat) :
    collectAttempts g rc ≤ maxRetries + 1 := by
  have key : ∀ n rc, maxRetries - rc ≤ n → collectAttempts g rc ≤ n + 1 := by
    intro n
    induction n with
    | zero =>
      intro rc h0
      have hnot : ¬ rc < maxRetries := by omega
      rw [collectAttempts]
      by_cases hg : g rc = true
      · simp [hg]
      · simp [hg, hnot]
    | succ n ih =>
      intro rc h
      rw [collectAttempts]
      by_cases hg : g rc = true
      · simp [hg]
      · by_cases hlt : rc < maxRetries
        · have := ih (rc + 1) (by omega)
          simp only [hg, Bool.false_eq_true, if_false, hlt, if_true]
          omega
        · simp [hg, hlt]
  exact Nat.le_trans (key maxRetries rc (by omega)) (by omega)

lemma exists_success_of_collect (g : Nat → Bool) (rc : Nat)
    (h : collectSingleDate g rc = true) : ∃ k, rc ≤ k ∧ g k = true := by
  have key : ∀ n rc, maxRetries - rc ≤ n → collectSingleDate g rc = true →
      ∃ k, rc ≤ k ∧ g k = true := by
    intro n
    induction n with
    | zero =>
      intro rc h0 hc
      rw [collectSingleDate] at hc
      by_cases hg : g rc = true
      · exact ⟨rc, Nat.le_refl rc, hg⟩
      · simp only [hg, Bool.false_eq_true, if_false] at hc
        have : ¬ rc < maxRetries := by omega
        rw [if_neg this] at hc
        exact absurd hc (by simp)
    | succ n ih =>
      intro rc h0 hc
      rw [collectSingleDate] at hc
      by_cases hg : g rc = true
      · exact ⟨rc, Nat.le_refl rc, hg⟩
      · simp only [hg, Bool.false_eq_true, if_false] at hc
        by_cases hlt : rc < maxRetries
        · rw [if_pos hlt] at hc
          obtain ⟨k, hk1, hk2⟩ := ih (rc + 1) (by omega) hc
          exact ⟨k, by omega, hk2⟩
        · rw [if_neg hlt] at hc
          exact absurd hc (by simp)
  exact key maxRetries rc (by omega) h

lemma processDates_nil (res : Nat → Bool) (p : Progress) :
    processDates [] res p = p := rfl

lemma processDates_cons (x : Nat) (ds : List Nat) (res : Nat → Bool) (p : Progress) :
    processDates (x :: ds) res p = processDates ds res (stepDate p x (res x)) := rfl

lemma completed_stepDate_mem (p : Progress) (x : Nat) (b : Bool) (d : Nat)
    (h : d ∈ (stepDate p x b).completed) :
    d ∈ p.completed ∨ (d = x ∧ b = true) := by
  cases b with
  | false => exact Or.inl (by simpa [stepDate] using h)
  | true =>
    have h2 : d ∈ p.completed ++ [x] := by simpa [stepDate] using h
    rcases List.mem_append.mp h2 with h1 | h1
    · exact Or.inl h1
    · exact Or.inr ⟨by simpa using h1, rfl⟩

lemma failed_stepDate_mem (p : Progress) (x : Nat) (b : Bool) (d : Nat)
    (h : d ∈ (stepDate p x b).failed) :
    d ∈ p.failed ∨ (d = x ∧ b = false) := by
  cases b with
  | true =>
    have h2 : d ∈ (if x ∈ p.failed then p.failed.erase x else p.failed) := by
      simpa [stepDate] using h
    split at h2
    · exact Or.inl (List.mem_of_mem_erase h2)
    · exact Or.inl h2
  | false =>
    have h2 : d ∈ (if x ∈ p.failed then p.failed else p.failed ++ [x]) := by
      simpa [stepDate] using h
    split at h2
    · exact Or.inl h2
    · rcases List.mem_append.mp h2 with h1 | h1
      · exact Or.inl h1
      · exact Or.inr ⟨by simpa using h1, rfl⟩

lemma processDates_completed_mem (ds : List Nat) (res : Nat → Bool) :
    ∀ (p0 : Progress) (d : Nat), d ∈ (processDates ds res p0).completed →
      d ∈ p0.completed ∨ (d ∈ ds ∧ res d = true) := by
  induction ds with
  | nil => intro p0 d h; exact Or.inl h
  | cons x rest ih =>
    intro p0 d h
    rw [processDates_cons] at h
    rcases ih _ d h with h1 | h1
    · rcases completed_stepDate_mem p0 x (res x) d h1 with h2 | h2
      · exact Or.inl h2
      · exact Or.inr ⟨by simp [h2.1], by rw [h2.1]; exact h2.2⟩
    · exact Or.inr ⟨List.mem_cons_of_mem _ h1.1, h1.2⟩

lemma processDates_failed_mem (ds : List Nat) (res : Nat → Bool) :
    ∀ (p0 : Progress) (d : Nat), d ∈ (processDates ds res p0).failed →
      d ∈ p0.failed ∨ (d ∈ ds ∧ res d = false) := by
  induction ds with
  | nil => intro p0 d h; exact Or.inl h
  | cons x rest ih =>
    intro p0 d h
    rw [processDates_cons] at h
    rcases ih _ d h with h1 | h1
    · rcases failed_stepDate_mem p0 x (res x) d h1 with h2 | h2
      · exact Or.inl h2
      · exact Or.inr ⟨by simp [h2.1], by rw [h2.1]; exact h2.2⟩
    · exact Or.inr ⟨List.mem_cons_of_mem _ h1.1, h1.2⟩

lemma completed_count_stepDate (p : Progress) (x : Nat) (b : Bool) (d : Nat) :
    (stepDate p x b).completed.count d =
      p.completed.count d + (if d = x ∧ b = true then 1 else 0) := by
  cases b with
  | false => simp [stepDate]
  | true =>
    by_cases hd : d = x <;> simp [stepDate, List.count_append, hd, List.count_singleton]

lemma processDates_count_not_mem (ds : List Nat) (res : Nat → Bool) :
    ∀ (p : Progress) (d : Nat), d ∉ ds →
      (processDates ds res p).completed.count d = p.completed.count d := by
  induction ds with
  | nil => intro p d _; rfl
  | cons x rest ih =>
    intro p d h
    rw [processDates_cons, ih _ d (fun hc => h (List.mem_cons_of_mem _ hc)),
      completed_count_stepDate]
    have : ¬ d = x := fun he => h (by simp [he])
    simp [this]

lemma processDates_count (ds : List Nat) (res : Nat → Bool) :
    ∀ (p : Progress) (d : Nat), ds.Nodup →
      (processDates ds res p).completed.count d =
        p.completed.count d + (if d ∈ ds ∧ res d = true then 1 else 0) := by
  induction ds with
  | nil => intro p d _; simp [processDates_nil]
  | cons x rest ih =>
    intro p d hnd
    rw [List.nodup_cons] at hnd
    rw [processDates_cons]
    by_cases hdx : d = x
    · subst hdx
      rw [processDates_count_not_mem rest res _ d hnd.1, completed_count_stepDate]
      simp
    · rw [ih _ d hnd.2, completed_count_stepDate]
      have : d ∈ x :: rest ↔ d ∈ rest := by simp [hdx]
      simp [hdx, this]

/-- Claim C1, counterexample: the claim asserts that every validation
subject with `expectedCount = 0` gets completeness 100.0, but for a key
player with zero expected records `validate_key_players` computes
completeness 0.0 (and classifies the player `missing`), because its
`else 0` branch has no empty-result short-circuit. -/
theorem player_expected_zero_counterexample :
    playerCompleteness 0 0 = 0 ∧ playerCompleteness 0 0 ≠ 100 ∧
      playerStatus 0 0 = VStatus.missing := by
  refine ⟨by simp [playerCompleteness], by norm_num [playerCompleteness], ?_⟩
  simp [playerStatus, playerCompleteness]
  norm_num

/-- Claim C1 (amended): when `expectedCount > 0` both the sampled-date and the
key-player paths compute completeness as actual/expected×100, which is 100.0
when actual equals expected and 0.0 when actual is 0; when `expectedCount = 0`
the sampled-date path short-circuits to status `no_games` with completeness
100.0 (no divide-by-zero), but the key-player path computes 0.0 and status
`missing`. -/
theorem completeness_math_amended (e a : Nat) :
    validateDate 0 a = (VStatus.noGames, 100) ∧
    playerCompleteness 0 a = 0 ∧
    playerStatus 0 a = VStatus.missing ∧
    (0 < e → (validateDate e a).2 = (a : ℚ) / (e : ℚ) * 100) ∧
    (0 < e → playerCompleteness e a = (a : ℚ) / (e : ℚ) * 100) ∧
    (0 < e → dateCompleteness e e = 100) ∧
    (0 < e → dateCompleteness e 0 = 0) := by
  refine ⟨by simp [validateDate], by simp [playerCompleteness], ?_, ?_, ?_, ?_, ?_⟩
  · simp [playerStatus, playerCompleteness]
    norm_num
  · intro he
    have he0 : e ≠ 0 := by omega
    simp [validateDate, dateCompleteness, he0, he]
  · intro he
    simp [playerCompleteness, he]
  · intro he
    have hne : (e : ℚ) ≠ 0 := Nat.cast_ne_zero.mpr (by omega)
    rw [dateCompleteness, if_pos he, div_self hne, one_mul]
  · intro he
    simp [dateCompleteness, he]

/-- Witness for the amended C1 theorem at expected = 4: completeness of a
positive expected count is the ratio, and full coverage gives 100.0. -/
theorem completeness_math_amended_witness :
    (validateDate 4 2).2 = (2 : ℚ) / (4 : ℚ) * 100 ∧ dateCompleteness 4 4 = 100 :=
  ⟨(completeness_math_amended 4 2).2.2.2.1 (by norm_num),
   (completeness_math_amended 4 4).2.2.2.2.2.1 (by norm_num)⟩

/-- Claim C2: with the in-range dates being exactly a completed date d1, a
failed date d2 and an unseen date d3, the new run's work list is exactly
the set made of d2 and d3 (the completed date excluded, the failed and unseen
dates included regardless of the failed list), in ascending order. -/
theorem dateRange_resume_exact (s e t d1 d2 d3 : Nat) (failedDates : List Nat)
    (hcap : cappedEnd e t = s + 2)
    (hset : ({d1, d2, d3} : Finset Nat) = {s, s + 1, s + 2})
    (h12 : d1 ≠ d2) (h13 : d1 ≠ d3) (h23 : d2 ≠ d3)
    (hfail : d2 ∈ failedDates) :
    (allDates s e t [d1]).toFinset = {d2, d3} ∧
    List.Sorted (· < ·) (allDates s e t [d1]) := by
  have hmem : ∀ x : Nat, x = d1 ∨ x = d2 ∨ x = d3 ↔ x = s ∨ x = s + 1 ∨ x = s + 2 := by
    intro x
    have := Finset.ext_iff.mp hset x
    simpa [Finset.mem_insert, Finset.mem_singleton] using this
  refine ⟨?_, sorted_allDates s e t [d1]⟩
  ext x
  simp only [List.mem_toFinset, mem_allDates, hcap, Finset.mem_insert,
    Finset.mem_singleton, List.mem_singleton]
  constructor
  · rintro ⟨hs, hle, hne⟩
    rcases (hmem x).mpr (by omega) with h | h | h
    · exact absurd h hne
    · exact Or.inl h
    · exact Or.inr h
  · rintro (rfl | rfl)
    · have hb := (hmem x).mp (Or.inr (Or.inl rfl))
      exact ⟨by omega, by omega, fun h => h12 h.symm⟩
    · have hb := (hmem x).mp (Or.inr (Or.inr rfl))
      exact ⟨by omega, by omega, fun h => h13 h.symm⟩

/-- Witness for C2: season days 0..2 with day 1 completed, day 0 failed and
day 2 unseen: the work list is exactly the set of days 0 and 2, ascending. -/
theorem dateRange_resume_exact_witness :
    (allDates 0 2 9 [1]).toFinset = ({0, 2} : Finset Nat) ∧
    List.Sorted (· < ·) (allDates 0 2 9 [1]) :=
  dateRange_resume_exact 0 2 9 1 0 2 [0] (by decide) (by decide) (by decide)
    (by decide) (by decide) (by decide)

/-- Claim C3: ingesting the same record set twice yields identical
`countByDate` results and an identical row count: the natural key is a pure
function of the record, and a second ingestion only hits the ON CONFLICT
update path, so no row is duplicated and no count changes (for any
deterministic per-record insert-failure behaviour, any initial store, any
date). -/
theorem ingest_twice_idempotent (insertFails : RawRecord → Bool) (s0 : Store)
    (df : List RawRecord) (d : CalDate) :
    countByDate (storeStatcastData insertFails
        (storeStatcastData insertFails s0 df).store df).store d
      = countByDate (storeStatcastData insertFails s0 df).store d ∧
    (storeStatcastData insertFails
        (storeStatcastData insertFails s0 df).store df).store.length
      = (storeStatcastData insertFails s0 df).store.length :=
  storeStatcastData_present_noop insertFails df d _
    (fun r hr hf => hasKey_storeStatcastData_mem insertFails df s0 r hr hf)

/-- Claim C9, counterexample: a run whose report status is INCOMPLETE (here
sample completeness 100, player completeness 90) still exits with status 0,
because the script's main block never calls sys.exit; the claim requires a
non-zero exit status for INCOMPLETE. -/
theorem exit_status_counterexample :
    validationStatus 100 90 = RunStatus.INCOMPLETE ∧
    (validateMainExit (validationStatus 100 90)).1 = 0 := by
  have h : validationStatus 100 90 = RunStatus.INCOMPLETE := by
    rw [validationStatus, if_neg]
    norm_num
  exact ⟨h, by rw [h]; decide⟩

/-- Claim C9 (amended): the validation entry point always exits with status 0
on a run that completes, whether the report is COMPLETE or INCOMPLETE; the
outcome is signalled only through the printed message (and the report file),
and the report status itself is COMPLETE exactly when both the sample and
player completeness percentages reach 95.0. -/
theorem exit_status_amended (st : RunStatus) (sc pc : ℚ) :
    (validateMainExit st).1 = 0 ∧
    ((validateMainExit st).2 = ["VALIDATION PASSED - ALL DATA IS COMPLETE!"] ↔
      st = RunStatus.COMPLETE) ∧
    (validationStatus sc pc = RunStatus.COMPLETE ↔ 95 ≤ sc ∧ 95 ≤ pc) := by
  refine ⟨?_, ?_, ?_⟩
  · cases st <;> rfl
  · cases st <;> simp [validateMainExit]
  · have h95 : (95.0 : ℚ) = 95 := by norm_num
    rw [validationStatus]
    split
    · rename_i h
      rw [ge_iff_le, le_min_iff, h95] at h
      simp [h]
    · rename_i h
      rw [ge_iff_le, le_min_iff, h95] at h
      simp [h]

/-- Claim C10: two distinct raw records from the same game whose play id,
pitch number, at-bat number and inning agree after the default-to-0 coercion
(which identifies an absent value with the value 0) produce the identical
natural key, so upserting both stores a single row whose payload is the later
record — the earlier payload is silently overwritten. -/
theorem naturalKey_collision_overwrite (r1 r2 : RawRecord)
    (hg : r1.gamePk = r2.gamePk)
    (hp : orZero r1.playId = orZero r2.playId)
    (hn : orZero r1.pitchNumber = orZero r2.pitchNumber)
    (hab : orZero r1.atBatNumber = orZero r2.atBatNumber)
    (hi : orZero r1.inning = orZero r2.inning) :
    pitchId r1 = pitchId r2 ∧
    orZero (some 0) = orZero none ∧
    (storeStatcastData (fun _ => false) [] [r1, r2]).store
      = [(pitchId r1, { rowOf r1 with statcastData := r2 })] := by
  have hkey : pitchId r1 = pitchId r2 := by
    unfold pitchId
    rw [hg, hp, hn, hab, hi]
  refine ⟨hkey, rfl, ?_⟩
  simp [storeStatcastData, upsertRow, hasKey, updEntry, rowOf, ← hkey]

/-- Witness for C10: two concrete records differing only in payload and in
none-versus-0 key components collide on the natural key. -/
theorem naturalKey_collision_overwrite_witness :
    pitchId ⟨some 716463, none, some 0, none, some 5, .dateV ⟨2025, 4, 2⟩,
        some 592450, some 123, "first"⟩
      = pitchId ⟨some 716463, some 0, none, some 0, some 5, .dateV ⟨2025, 4, 2⟩,
        some 592450, some 123, "second"⟩ :=
  (naturalKey_collision_overwrite _ _ (by decide) (by decide) (by decide)
    (by decide) (by decide)).1

lemma countP_bnot {α : Type} (l : List α) (p : α → Bool) :
    l.countP (fun r => !(p r)) = l.length - l.countP p := by
  induction l with
  | nil => rfl
  | cons x t ih =>
    have hle := List.countP_le_length p (l := t)
    by_cases hp : p x
    · simp [List.countP_cons, hp, ih]
    · simp [List.countP_cons, hp, ih]
      omega

lemma countP_congr_eq {α : Type} (l : List α) (p q : α → Bool)
    (h : ∀ a ∈ l, p a = q a) : l.countP p = l.countP q := by
  induction l with
  | nil => rfl
  | cons x t ih =>
    simp [List.countP_cons, h x (List.mem_cons_self x t),
      ih (fun a ha => h a (List.mem_cons_of_mem _ ha))]

/-- Claim C4: a date whose fetch fails at every attempt is tried
`maxRetries + 1` times in total (the initial attempt plus exactly
`maxRetries = 3` retries), the collection returns failure, the attempt count
is bounded by `maxRetries + 1` for every attempt-outcome function (the
recursion always terminates), and the run then marks the date failed. -/
theorem retry_bound_exact (f : Nat → Bool) (h : ∀ k, f k = false) :
    collectAttempts f 0 = maxRetries + 1 ∧
    maxRetries = 3 ∧
    collectSingleDate f 0 = false ∧
    (∀ (g : Nat → Bool) (rc : Nat), collectAttempts g rc ≤ maxRetries + 1) ∧
    (∀ dt : Nat, dt ∈ (processDates [dt] (fun _ => collectSingleDate f 0)
        { completed := [], failed := [] }).failed) := by
  have hfalse : collectSingleDate f 0 = false := by
    simp [collectSingleDate, maxRetries, h]
  refine ⟨?_, rfl, hfalse, fun g rc => collectAttempts_le g rc, ?_⟩
  · simp [collectAttempts, maxRetries, h]
  · intro dt
    simp [processDates, stepDate, hfalse]

/-- Witness for C4 with the constantly failing attempt function: four
attempts in total and a failure result. -/
theorem retry_bound_exact_witness :
    collectAttempts (fun _ => false) 0 = maxRetries + 1 ∧
    collectSingleDate (fun _ => false) 0 = false :=
  ⟨(retry_bound_exact (fun _ => false) (fun _ => rfl)).1,
   (retry_bound_exact (fun _ => false) (fun _ => rfl)).2.2.1⟩

/-- Claim C5: the work list schedules each date at most once; over any
processed date list (in particular any interrupted run, whose saved
checkpoint is the state after a prefix of the work list) a date appears in
`completed_dates` only if it was already there or its collection result for
this run was success, and in `failed_dates` only if already there or its
result was failure; under a duplicate-free work list the `completed_dates`
count of a date changes by exactly one on success and zero otherwise (at most
one terminal transition per date per run); and a successful
`collect_single_date` result means some attempt — fetch, store commit and
validation — actually succeeded. -/
theorem checkpoint_terminal_once :
    (∀ (s e t : Nat) (completed0 : List Nat), (allDates s e t completed0).Nodup) ∧
    (∀ (ds : List Nat) (res : Nat → Bool) (p0 : Progress) (d : Nat),
      (d ∈ (processDates ds res p0).completed →
        d ∈ p0.completed ∨ (d ∈ ds ∧ res d = true)) ∧
      (d ∈ (processDates ds res p0).failed →
        d ∈ p0.failed ∨ (d ∈ ds ∧ res d = false))) ∧
    (∀ (ds : List Nat) (res : Nat → Bool) (p0 : Progress) (d : Nat), ds.Nodup →
      (processDates ds res p0).completed.count d =
        p0.completed.count d + (if d ∈ ds ∧ res d = true then 1 else 0)) ∧
    (∀ (g : Nat → Bool) (rc : Nat), collectSingleDate g rc = true →
      ∃ k, rc ≤ k ∧ g k = true) :=
  ⟨nodup_allDates,
   fun ds res p0 d =>
     ⟨processDates_completed_mem ds res p0 d, processDates_failed_mem ds res p0 d⟩,
   fun ds res p0 d hnd => processDates_count ds res p0 d hnd,
   fun g rc h => exists_success_of_collect g rc h⟩

/-- Witness for C5: a two-date run in which only date 5 succeeds adds exactly
one occurrence of date 5 to `completed_dates`. -/
theorem checkpoint_terminal_once_witness :
    (processDates [5, 6] (fun d => d == 5)
        { completed := [], failed := [] }).completed.count 5
      = ({ completed := [], failed := [] } : Progress).completed.count 5 +
        (if 5 ∈ [5, 6] ∧ (fun d : Nat => d == 5) 5 = true then 1 else 0) :=
  checkpoint_terminal_once.2.2.1 [5, 6] (fun d => d == 5)
    { completed := [], failed := [] } 5 (by decide)

/-- Claim C6, counterexample: a 10-record batch with exactly one record whose
insert fails is stored as 9 rows with one logged failure and countByDate 9,
as the claim says — but the date is then NOT marked complete: validating
10 expected against 9 actual gives completeness 90% < 99.5, so the status is
`incomplete`, every retry sees the same result, `collect_single_date` returns
failure, and the run records the date in `failed_dates`. -/
theorem partial_batch_counterexample :
    ((storeStatcastData (fun r => r.payload == "bad") []
        ((List.range 10).map (fun i =>
          ⟨some 1, none, some (i + 1), none, some 1, .dateV ⟨2025, 4, 2⟩, none, none,
            if i == 9 then "bad" else "ok"⟩))).inserted = 9 ∧
      (storeStatcastData (fun r => r.payload == "bad") []
        ((List.range 10).map (fun i =>
          ⟨some 1, none, some (i + 1), none, some 1, .dateV ⟨2025, 4, 2⟩, none, none,
            if i == 9 then "bad" else "ok"⟩))).failLog.length = 1 ∧
      countByDate (storeStatcastData (fun r => r.payload == "bad") []
        ((List.range 10).map (fun i =>
          ⟨some 1, none, some (i + 1), none, some 1, .dateV ⟨2025, 4, 2⟩, none, none,
            if i == 9 then "bad" else "ok"⟩))).store ⟨2025, 4, 2⟩ = 9) ∧
    (validateDate 10 9).1 = VStatus.incomplete ∧
    (validateDate 10 9).1 ≠ VStatus.complete ∧
    collectSingleDate (fun _ => false) 0 = false ∧
    (5 : Nat) ∈ (processDates [5] (fun _ => false)
      { completed := [], failed := [] }).failed := by
  have h : (validateDate 10 9).1 = VStatus.incomplete := by
    norm_num [validateDate, dateCompleteness]
  refine ⟨by decide, h, by rw [h]; simp, by simp [collectSingleDate, maxRetries],
    by decide⟩

/-- Claim C6 (amended): a batch in which exactly one record's insert fails is
not aborted: the failing record is skipped with one logged failure entry, the
other n-1 records are committed, and countByDate for the batch's date is n-1;
but the date is then marked complete only when (n-1)/n·100 still reaches the
99.5 threshold, i.e. only for n ≥ 200 — for a small batch (such as the 10 of
the spec's scenario) the date is classified incomplete and ends up failed. -/
theorem partial_batch_amended (df : List RawRecord) (f : RawRecord → Bool) (d : CalDate)
    (hone : df.countP f = 1)
    (hnodup : ((df.filter (fun r => !(f r))).map pitchId).Nodup)
    (hdate : ∀ r ∈ df, f r = false → (rowOf r).gameDate = some d) :
    (storeStatcastData f [] df).processed = df.length ∧
    (storeStatcastData f [] df).inserted = df.length - 1 ∧
    (storeStatcastData f [] df).failLog.length = 1 ∧
    countByDate (storeStatcastData f [] df).store d = df.length - 1 ∧
    ((validateDate df.length (df.length - 1)).1 = VStatus.complete ↔
      200 ≤ df.length) := by
  obtain ⟨hproc, hins, hfail⟩ := storeStatcastData_counters f df []
  have hlen1 : 1 ≤ df.length := by
    rcases df with _ | ⟨r, t⟩
    · simp [List.countP_nil] at hone
    · simp
  have hinsval : df.countP (fun r => !(f r)) = df.length - 1 := by
    rw [countP_bnot, hone]
  have hcbd : countByDate (storeStatcastData f [] df).store d = df.length - 1 := by
    rw [countByDate_storeStatcastData_fresh f d df [] (fun r _ _ => rfl) hnodup]
    have hcongr : df.countP (fun r => !(f r) && decide ((rowOf r).gameDate = some d))
        = df.countP (fun r => !(f r)) := by
      apply countP_congr_eq
      intro r hr
      by_cases hf : f r
      · simp [hf]
      · have := hdate r hr (by simpa using hf)
        simp [hf, this]
    rw [hcongr, hinsval]
    simp [countByDate]
  have hne0 : df.length ≠ 0 := by omega
  have hpos : 0 < df.length := by omega
  have hnQ : (0 : ℚ) < (df.length : ℚ) := by exact_mod_cast hpos
  have key : (99.5 : ℚ) ≤ ((df.length - 1 : ℕ) : ℚ) / (df.length : ℚ) * 100 ↔
      200 ≤ df.length := by
    rw [div_mul_eq_mul_div, le_div_iff₀ hnQ, Nat.cast_sub hlen1]
    push_cast
    constructor
    · intro hq
      have h2 : (200 : ℚ) ≤ (df.length : ℚ) := by nlinarith
      exact_mod_cast h2
    · intro hn
      have h2 : (200 : ℚ) ≤ (df.length : ℚ) := by exact_mod_cast hn
      nlinarith
  have hiff : (validateDate df.length (df.length - 1)).1 = VStatus.complete ↔
      200 ≤ df.length := by
    have hv : (validateDate df.length (df.length - 1)).1
        = (if (99.5 : ℚ) ≤ ((df.length - 1 : ℕ) : ℚ) / (df.length : ℚ) * 100
            then VStatus.complete
            else if 0 < ((df.length - 1 : ℕ) : ℚ) / (df.length : ℚ) * 100
              then VStatus.incomplete
              else VStatus.missing) := by
      simp [validateDate, dateCompleteness, hne0, hpos]
    rw [hv]
    split
    · rename_i hc
      simp [key.mp hc]
    · rename_i hc
      have h200 : ¬ 200 ≤ df.length := fun hx => hc (key.mpr hx)
      split <;> simp [h200]
  exact ⟨hproc, by rw [hins, hinsval], by rw [hfail, hone], hcbd, hiff⟩

/-- Witness for the amended C6 theorem: a concrete 3-record batch, one record
failing its insert, stores 2 rows, logs one failure, has countByDate 2, and
is classified complete only if 200 ≤ 3 (i.e. not complete). -/
theorem partial_batch_amended_witness :
    (storeStatcastData (fun r => r.payload == "bad") []
        [⟨some 1, none, some 1, none, some 1, .dateV ⟨2025, 4, 2⟩, none, none, "ok"⟩,
         ⟨some 1, none, some 2, none, some 1, .dateV ⟨2025, 4, 2⟩, none, none, "bad"⟩,
         ⟨some 1, none, some 3, none, some 1, .dateV ⟨2025, 4, 2⟩, none, none, "ok"⟩]).inserted
      = ([⟨some 1, none, some 1, none, some 1, .dateV ⟨2025, 4, 2⟩, none, none, "ok"⟩,
          ⟨some 1, none, some 2, none, some 1, .dateV ⟨2025, 4, 2⟩, none, none, "bad"⟩,
          ⟨some 1, none, some 3, none, some 1, .dateV ⟨2025, 4, 2⟩, none, none, "ok"⟩]
            : List RawRecord).length - 1 :=
  (partial_batch_amended _ _ ⟨2025, 4, 2⟩ (by decide) (by decide)
    (by decide)).2.1

/-- Claim C7, counterexample: a record whose date field is the unparsable
string not-a-real-date is normalized without any reported error — the shared
parser silently yields none, the record is still inserted (failure log
empty), and the stored row has an absent calendar date. -/
theorem unparsable_date_counterexample :
    convertToDate (.strV "not-a-real-date") = none ∧
    (rowOf ⟨some 99, none, some 1, none, some 1, .strV "not-a-real-date", none, none,
        "x"⟩).gameDate = none ∧
    (storeStatcastData (fun _ => false) []
        [⟨some 99, none, some 1, none, some 1, .strV "not-a-real-date", none, none,
          "x"⟩]).store
      = [(pitchId ⟨some 99, none, some 1, none, some 1, .strV "not-a-real-date", none,
          none, "x"⟩,
          rowOf ⟨some 99, none, some 1, none, some 1, .strV "not-a-real-date", none,
          none, "x"⟩)] ∧
    (storeStatcastData (fun _ => false) []
        [⟨some 99, none, some 1, none, some 1, .strV "not-a-real-date", none, none,
          "x"⟩]).failLog = [] := by
  decide

/-- Claim C7 (amended): on an unparsable date string the shared parser
returns none (after only logging a warning) instead of raising an error; the
record is not dropped at normalization — it proceeds to the insert with an
absent calendar date and, whenever the insert itself does not fail, is stored
as a row whose date is NULL with no dropped-record log entry. -/
theorem unparsable_date_amended (s : String)
    (hT : s.data.contains 'T' = false)
    (hparse : parseSimpleDate s = none) :
    convertToDate (.strV s) = none ∧
    ∀ r : RawRecord, r.gameDate = .strV s →
      (rowOf r).gameDate = none ∧
      (storeStatcastData (fun _ => false) [] [r]).inserted = 1 ∧
      (storeStatcastData (fun _ => false) [] [r]).failLog = [] ∧
      (storeStatcastData (fun _ => false) [] [r]).store = [(pitchId r, rowOf r)] := by
  have hc : convertToDate (.strV s) = none := by
    have hT2 : ¬ ('T' ∈ s.data) := by simpa using hT
    simp [convertToDate, hT2, hparse]
  refine ⟨hc, ?_⟩
  intro r hr
  have hrow : (rowOf r).gameDate = none := by
    simp [rowOf, hr, hc]
  exact ⟨hrow, by simp [storeStatcastData], by simp [storeStatcastData],
    by simp [storeStatcastData, upsertRow, hasKey]⟩

/-- Witness for the amended C7 theorem at the concrete unparsable string. -/
theorem unparsable_date_amended_witness :
    convertToDate (.strV "not-a-real-date") = none ∧
    (rowOf ⟨some 7, none, none, none, none, .strV "not-a-real-date", none, none,
        "w"⟩).gameDate = none :=
  ⟨(unparsable_date_amended "not-a-real-date" (by decide) (by decide)).1,
   ((unparsable_date_amended "not-a-real-date" (by decide) (by decide)).2
      ⟨some 7, none, none, none, none, .strV "not-a-real-date", none, none, "w"⟩
      rfl).1⟩

/-- Claim C8, counterexample: during a save of the new serialized state, an
interrupted writer leaves observable file contents (the empty file right
after the truncating open, or a partial write) that are neither the
previously persisted state nor the new state — the write is not atomic and
the previous state is not intact after a failed save. -/
theorem save_not_atomic_counterexample :
    "" ∈ saveProgressStates "new-checkpoint-state" ∧
    ("" : String) ≠ "old-checkpoint-state" ∧
    ("" : String) ≠ "new-checkpoint-state" ∧
    "new-check" ∈ saveProgressStates "new-checkpoint-state" ∧
    ("new-check" : String) ≠ "new-checkpoint-state" ∧
    ("new-check" : String) ≠ "old-checkpoint-state" := by
  decide

/-- Claim C8 (amended): `save_progress` persists the state to the checkpoint
file (a completed save leaves exactly the new serialized content, durable
across restarts), but the write is in place and not atomic: the observable
contents during a save are exactly the left-to-right partial writes of the
new state, starting from the empty file produced by the truncating open —
so an interruption can expose a partial or empty file and the previous state
is destroyed at the start of the save. -/
theorem save_truncate_write_amended (c : String) :
    saveProgressStates c ≠ [] ∧
    "" ∈ saveProgressStates c ∧
    c ∈ saveProgressStates c ∧
    (∀ x ∈ saveProgressStates c,
      ∃ k, k ≤ c.data.length ∧ x = String.mk (c.data.take k)) := by
  refine ⟨?_, ?_, ?_, ?_⟩
  · simp [saveProgressStates]
  · exact List.mem_map.mpr ⟨0, List.mem_range.mpr (Nat.succ_pos _), rfl⟩
  · refine List.mem_map.mpr ⟨c.data.length, List.mem_range.mpr (by omega), ?_⟩
    rw [List.take_length]
  · intro x hx
    obtain ⟨k, hk, hxe⟩ := List.mem_map.mp hx
    have hk2 : k < c.data.length + 1 := List.mem_range.mp hk
    exact ⟨k, by omega, hxe.symm⟩

/-- Witness for the amended C8 theorem: the observable state of length one
during a save of the two-character state is a partial write. -/
theorem save_truncate_write_amended_witness :
    ∃ k, k ≤ ("ab" : String).data.length ∧
      ("a" : String) = String.mk (("ab" : String).data.take k) :=
  (save_truncate_write_amended "ab").2.2.2 "a" (by decide)

end StatEdge
